import Mathlib

/-!
Shallow embedding of the `rust_profiler` memory-profiling tool
(`src/rust_profiler/src/{main,memory_tracker,process_monitor}.rs`).

Modelling conventions:
* Rust `usize`/`u64` counters are modelled as `Nat`.  The spec's data model
  treats all counters as unbounded non-negative integers, and every addition
  in the source (`+=` on monotone totals and counts) is modelled as plain
  `Nat` addition.  The single subtraction on a counter,
  `current_usage -= info.size` in `MemoryTracker::remove_allocation`, is the
  one place where machine-integer behaviour is observable with small,
  reachable values: when `info.size > current_usage` the Rust subtraction
  underflows (a panic in debug builds, wraparound in release builds).  It is
  therefore modelled partially: `remove_allocation` returns `none` exactly
  when the underflow would occur, and otherwise the mathematical difference.
* Rust `HashMap<usize, AllocationInfo>` is modelled as an association list
  with unique keys; `insert` replaces an existing binding, `remove` deletes
  it.  Iteration order of a `HashMap` is arbitrary, so properties that
  depend on the ledger only up to permutation are proved permutation-
  invariant where the claim calls for determinism.
* `chrono::DateTime` values are modelled as integer timestamps; the
  `Duration` stored in a report is a `Nat` (a non-negative span).
-/

/-- Mirror of `AllocationInfo` from `main.rs`. -/
structure AllocationInfo where
  size : Nat
  timestamp : Int
  stack_trace : List String
  thread_id : Nat
deriving DecidableEq, Repr

/-- Mirror of `MemoryStats` from `main.rs`; the `HashMap` ledger becomes an
association list with unique keys. -/
structure MemoryStats where
  total_allocated : Nat
  total_freed : Nat
  current_usage : Nat
  peak_usage : Nat
  allocation_count : Nat
  free_count : Nat
  active_allocations : List (Nat × AllocationInfo)
deriving DecidableEq, Repr

/-- Mirror of `LeakSummary` from `main.rs`. -/
structure LeakSummary where
  total_leaked_bytes : Nat
  leak_count : Nat
  largest_leak : Option Nat
  leaks_by_size : List (Nat × Nat)
deriving DecidableEq, Repr

/-- Mirror of `MemoryTracker` from `memory_tracker.rs`: the running snapshot
plus the tracker's private `peak_usage` field. -/
structure MemoryTracker where
  current_stats : MemoryStats
  peak_usage : Nat
deriving DecidableEq, Repr

/-- Mirror of `ProfileReport` from `main.rs` (serde/IO fields kept as data). -/
structure ProfileReport where
  pid : Nat
  command : String
  start_time : Int
  end_time : Int
  duration : Nat
  memory_stats : MemoryStats
  leak_summary : LeakSummary
deriving DecidableEq, Repr

/-- Association-list lookup, modelling `HashMap::get` / the probe done by
`HashMap::remove`. -/
def lookupA (address : Nat) : List (Nat × AllocationInfo) → Option AllocationInfo
  | [] => none
  | (k, v) :: t => if k = address then some v else lookupA address t

/-- Remove the binding for `address`, modelling `HashMap::remove`'s effect on
the ledger. -/
def eraseA (address : Nat) : List (Nat × AllocationInfo) → List (Nat × AllocationInfo)
  | [] => []
  | (k, v) :: t => if k = address then t else (k, v) :: eraseA address t

/-- Insert-or-replace, modelling `HashMap::insert`. -/
def insertA (address : Nat) (info : AllocationInfo)
    (m : List (Nat × AllocationInfo)) : List (Nat × AllocationInfo) :=
  (address, info) :: eraseA address m

/-- Sum of the sizes of the records in a ledger. -/
def sumSizes (m : List (Nat × AllocationInfo)) : Nat :=
  (m.map fun p => p.2.size).sum

/-- Mirror of `MemoryTracker::new`. -/
def MemoryTracker.new : MemoryTracker :=
  { current_stats :=
      { total_allocated := 0
        total_freed := 0
        current_usage := 0
        peak_usage := 0
        allocation_count := 0
        free_count := 0
        active_allocations := [] }
    peak_usage := 0 }

/-- Mirror of `MemoryTracker::update_stats` (the spec's `replace_snapshot`):
raise the private peak if the incoming `current_usage` exceeds it, replace
the whole snapshot, then overwrite the snapshot's `peak_usage` with the
tracked peak. -/
def MemoryTracker.update_stats (t : MemoryTracker) (new_stats : MemoryStats) :
    MemoryTracker :=
  let pk := if new_stats.current_usage > t.peak_usage
            then new_stats.current_usage else t.peak_usage
  { current_stats := { new_stats with peak_usage := pk }
    peak_usage := pk }

/-- Mirror of `MemoryTracker::add_allocation`: bump the totals, insert into
the ledger, and re-derive the peak.  Note the source updates the snapshot's
`peak_usage` field only inside the `if`, so when the new usage does not
exceed the tracked peak the snapshot's `peak_usage` is left as it was. -/
def MemoryTracker.add_allocation (t : MemoryTracker) (address : Nat)
    (info : AllocationInfo) : MemoryTracker :=
  let s := t.current_stats
  let usage := s.current_usage + info.size
  { current_stats :=
      { s with
        total_allocated := s.total_allocated + info.size
        current_usage := usage
        allocation_count := s.allocation_count + 1
        active_allocations := insertA address info s.active_allocations
        peak_usage := if usage > t.peak_usage then usage else s.peak_usage }
    peak_usage := if usage > t.peak_usage then usage else t.peak_usage }

/-- The tracker state after the success path of
`MemoryTracker::remove_allocation`: `total_freed += info.size`,
`current_usage -= info.size`, `free_count += 1`, ledger entry removed. -/
def removeState (t : MemoryTracker) (address : Nat) (info : AllocationInfo) :
    MemoryTracker :=
  { t with current_stats :=
    { t.current_stats with
      total_freed := t.current_stats.total_freed + info.size
      current_usage := t.current_stats.current_usage - info.size
      free_count := t.current_stats.free_count + 1
      active_allocations := eraseA address t.current_stats.active_allocations } }

/-- Mirror of `MemoryTracker::remove_allocation`.  The source performs
`current_usage -= info.size` on a `usize`; that subtraction is only defined
(no underflow) when `info.size ≤ current_usage`.  The `none` result marks
the underflow case — in Rust a debug-build panic or a release-build
wraparound, in either case not the mathematical difference and not a clamp
to zero.  `some (none, t)` is the absent-address case: the source returns
`None` and touches nothing. -/
def MemoryTracker.remove_allocation (t : MemoryTracker) (address : Nat) :
    Option (Option AllocationInfo × MemoryTracker) :=
  match lookupA address t.current_stats.active_allocations with
  | none => some (none, t)
  | some info =>
    if info.size ≤ t.current_stats.current_usage then
      some (some info, removeState t address info)
    else none

/-- Maximum of the record sizes, modelling
`active_allocations.values().map(|a| a.size).max()`. -/
def maxSize : List AllocationInfo → Option Nat
  | [] => none
  | v :: vs =>
    match maxSize vs with
    | none => some v.size
    | some m => some (max v.size m)

/-- One step of the grouping loop in `calculate_leak_summary`:
`*size_groups.entry(size).or_insert(0) += 1`. -/
def bump (s : Nat) : List (Nat × Nat) → List (Nat × Nat)
  | [] => [(s, 1)]
  | (k, c) :: t => if k = s then (k, c + 1) :: t else (k, c) :: bump s t

/-- Lookup in the size→count association list (`size_groups.get`). -/
def lookupC (s : Nat) : List (Nat × Nat) → Option Nat
  | [] => none
  | (k, c) :: t => if k = s then some c else lookupC s t

/-- The `size_groups` map of `calculate_leak_summary`: fold the ledger's
values through `bump`. -/
def groupCounts (vs : List AllocationInfo) : List (Nat × Nat) :=
  vs.foldl (fun g v => bump v.size g) []

/-- Mirror of `calculate_leak_summary` from `main.rs`: leaked bytes are the
snapshot's `current_usage` (not recomputed from the ledger), the leak count
is the ledger's cardinality, the largest leak is the maximal record size,
and `leaks_by_size` is the size→count grouping sorted by size descending
(`sort_by(|a, b| b.0.cmp(&a.0))`). -/
def calculate_leak_summary (stats : MemoryStats) : LeakSummary :=
  let vs := stats.active_allocations.map Prod.snd
  { total_leaked_bytes := stats.current_usage
    leak_count := stats.active_allocations.length
    largest_leak := maxSize vs
    leaks_by_size := List.insertionSort (fun a b => b.1 ≤ a.1) (groupCounts vs) }

/-- Pure core of `ProcessMonitor::get_memory_stats` after the fallible
`/proc` reads have succeeded: `resident` and `pageSize` come from `statm`,
`vmrss?`/`vmpeak?` are the optional kB values from `/proc/pid/status`, and
`total_freed` uses `saturating_sub` (truncated subtraction on `Nat`). -/
def get_memory_stats (resident pageSize : Nat) (vmrss? vmpeak? : Option Nat) :
    MemoryStats :=
  let current_usage := resident * pageSize
  let vmrss := (vmrss?.map fun kb => kb * 1024).getD current_usage
  let vmpeak := (vmpeak?.map fun kb => kb * 1024).getD current_usage
  { total_allocated := vmpeak
    total_freed := vmpeak - vmrss
    current_usage := vmrss
    peak_usage := vmpeak
    allocation_count := 0
    free_count := 0
    active_allocations := [] }

/-- An allocation-path event fed to the tracker: one `add_allocation` or one
`remove_allocation` call. -/
inductive AllocEvent where
  | add (address : Nat) (info : AllocationInfo)
  | remove (address : Nat)
deriving DecidableEq, Repr

/-- Apply one event; `none` propagates the underflow case of
`remove_allocation`. -/
def applyEvent (t : MemoryTracker) : AllocEvent → Option MemoryTracker
  | .add a i => some (t.add_allocation a i)
  | .remove a => (t.remove_allocation a).map Prod.snd

/-- Apply a whole trace of events, stopping at an underflow. -/
def applyEvents (t : MemoryTracker) : List AllocEvent → Option MemoryTracker
  | [] => some t
  | e :: es =>
    match applyEvent t e with
    | none => none
    | some t' => applyEvents t' es

/-- Trace validity for the claims about interleavings: no address is added
while still present.  `ks` is the list of currently live addresses; a
`remove` (present or not) deletes the address from it. -/
def okEvents (ks : List Nat) : List AllocEvent → Bool
  | [] => true
  | .add a _ :: es => !decide (a ∈ ks) && okEvents (a :: ks) es
  | .remove a :: es => okEvents (ks.erase a) es

/-- Apply a sequence of `update_stats` (the spec's `replace_snapshot`) calls
left to right, as the sampling loop in `main.rs` does once per tick. -/
def applyUpdates (t : MemoryTracker) (ss : List MemoryStats) : MemoryTracker :=
  ss.foldl MemoryTracker.update_stats t

/-- An `AllocationInfo` with the given size and inert metadata, for concrete
scenarios. -/
def mkInfo (size : Nat) : AllocationInfo :=
  { size := size, timestamp := 0, stack_trace := [], thread_id := 0 }

/-- A snapshot with the given `current_usage` and everything else empty, for
concrete `update_stats` scenarios. -/
def usageSnap (u : Nat) : MemoryStats :=
  { total_allocated := 0
    total_freed := 0
    current_usage := u
    peak_usage := 0
    allocation_count := 0
    free_count := 0
    active_allocations := [] }

/-- A snapshot whose ledger holds a 5-byte record while `current_usage` is 0,
as an external sampler can hand to `update_stats`. -/
def inconsistentSnap : MemoryStats :=
  { total_allocated := 0
    total_freed := 0
    current_usage := 0
    peak_usage := 0
    allocation_count := 1
    free_count := 0
    active_allocations := [(1, mkInfo 5)] }

/-- A reachable tracker state in which the ledger's record is larger than
`current_usage`: a fresh tracker after one `update_stats` call with
`inconsistentSnap`. -/
def underflowTracker : MemoryTracker :=
  MemoryTracker.new.update_stats inconsistentSnap

/-- The three-allocation scenario ledger of the spec:
`{addr1: size=100, addr2: size=100, addr3: size=200}` built by three
`add_allocation` calls on a fresh tracker. -/
def scenarioTracker : MemoryTracker :=
  ((MemoryTracker.new.add_allocation 1 (mkInfo 100)).add_allocation 2
      (mkInfo 100)).add_allocation 3 (mkInfo 200)

/-- A fresh tracker holding exactly one 5-byte record at address 1. -/
def oneAllocTracker : MemoryTracker :=
  MemoryTracker.new.add_allocation 1 (mkInfo 5)

/-- A concrete interleaving without duplicate live addresses: two adds, a
matching remove, a stray remove of an absent address, and a re-add of a
previously freed address. -/
def traceExample : List AllocEvent :=
  [.add 1 (mkInfo 100), .add 2 (mkInfo 50), .remove 1, .remove 7,
   .add 1 (mkInfo 30)]

/-- Pure core of `generate_report` from `main.rs`: the duration is
`end_time.signed_duration_since(start_time).to_std().unwrap_or(Duration::ZERO)`,
i.e. the signed difference clamped to zero when negative (`Int.toNat`), and
the report packages the inputs with the computed leak summary. -/
def generate_report (pid : Nat) (command : String) (start_time end_time : Int)
    (memory_stats : MemoryStats) : ProfileReport :=
  { pid := pid
    command := command
    start_time := start_time
    end_time := end_time
    duration := (end_time - start_time).toNat
    memory_stats := memory_stats
    leak_summary := calculate_leak_summary memory_stats }

/-! ## Association-list lemmas -/

theorem lookupA_eq_none_iff (a : Nat) (l : List (Nat × AllocationInfo)) :
    lookupA a l = none ↔ a ∉ l.map Prod.fst := by
  induction l with
  | nil => simp [lookupA]
  | cons p t ih =>
    obtain ⟨k, v⟩ := p
    simp only [List.map_cons, List.mem_cons, not_or]
    by_cases hk : k = a
    · subst hk
      simp [lookupA]
    · simp only [lookupA, if_neg hk, ih]
      constructor
      · intro h
        exact ⟨fun hak => hk hak.symm, h⟩
      · intro h
        exact h.2

theorem eraseA_of_not_mem (a : Nat) (l : List (Nat × AllocationInfo))
    (h : a ∉ l.map Prod.fst) : eraseA a l = l := by
  induction l with
  | nil => rfl
  | cons p t ih =>
    obtain ⟨k, v⟩ := p
    simp only [List.map_cons, List.mem_cons, not_or] at h
    have hk : ¬k = a := fun hka => h.1 hka.symm
    simp [eraseA, hk, ih h.2]

theorem sumSizes_cons (p : Nat × AllocationInfo) (l : List (Nat × AllocationInfo)) :
    sumSizes (p :: l) = p.2.size + sumSizes l := by
  simp [sumSizes]

theorem sumSizes_eraseA {a : Nat} {l : List (Nat × AllocationInfo)}
    {v : AllocationInfo} (h : lookupA a l = some v) :
    sumSizes l = v.size + sumSizes (eraseA a l) := by
  induction l with
  | nil => simp [lookupA] at h
  | cons p t ih =>
    obtain ⟨k, w⟩ := p
    by_cases hk : k = a
    · simp [lookupA, hk] at h
      simp [eraseA, hk, sumSizes_cons, h]
    · simp [lookupA, hk] at h
      simp [eraseA, hk, sumSizes_cons, ih h]
      omega

theorem length_eraseA {a : Nat} {l : List (Nat × AllocationInfo)}
    {v : AllocationInfo} (h : lookupA a l = some v) :
    l.length = (eraseA a l).length + 1 := by
  induction l with
  | nil => simp [lookupA] at h
  | cons p t ih =>
    obtain ⟨k, w⟩ := p
    by_cases hk : k = a
    · simp [eraseA, hk]
    · simp [lookupA, hk] at h
      simp [eraseA, hk, ih h]

theorem keys_eraseA (a : Nat) (l : List (Nat × AllocationInfo)) :
    (eraseA a l).map Prod.fst = (l.map Prod.fst).erase a := by
  induction l with
  | nil => rfl
  | cons p t ih =>
    obtain ⟨k, v⟩ := p
    by_cases hk : k = a
    · simp [eraseA, hk, List.erase_cons]
    · simp [eraseA, hk, List.erase_cons, ih]

theorem size_le_sumSizes {a : Nat} {l : List (Nat × AllocationInfo)}
    {v : AllocationInfo} (h : lookupA a l = some v) : v.size ≤ sumSizes l := by
  rw [sumSizes_eraseA h]
  exact Nat.le_add_right _ _

/-! ## Peak tracking (`update_stats`) -/

theorem update_stats_peak (t : MemoryTracker) (s : MemoryStats) :
    (t.update_stats s).peak_usage = max t.peak_usage s.current_usage := by
  simp only [MemoryTracker.update_stats, Nat.max_def]
  split <;> split <;> omega

theorem applyUpdates_peak (ss : List MemoryStats) :
    ∀ t : MemoryTracker, (applyUpdates t ss).peak_usage
      = (ss.map MemoryStats.current_usage).foldl max t.peak_usage := by
  induction ss with
  | nil => intro t; rfl
  | cons s ss ih =>
    intro t
    have h1 : applyUpdates t (s :: ss) = applyUpdates (t.update_stats s) ss := rfl
    rw [h1, ih, List.map_cons, List.foldl_cons, update_stats_peak]

theorem applyUpdates_stats_peak (ss : List MemoryStats) :
    ∀ t : MemoryTracker,
      t.current_stats.peak_usage = t.peak_usage →
      (applyUpdates t ss).current_stats.peak_usage = (applyUpdates t ss).peak_usage := by
  induction ss with
  | nil => intro t h; exact h
  | cons s ss ih =>
    intro t _
    exact ih (t.update_stats s) rfl

/-! ## Claim C4: peak tracking across `replace_snapshot` sequences -/

/-- C4: after every prefix of a sequence of `update_stats`
(`replace_snapshot`) calls on a fresh tracker, the stored snapshot's
`peak_usage` equals the maximum `current_usage` among the snapshots passed
so far (folding `max` from 0 over naturals computes exactly that maximum);
hence the peak is monotonically non-decreasing from call to call, and the
1000/500/1500 scenario ends with peak 1500. -/
theorem replace_snapshot_peak_running_max :
    (∀ ss : List MemoryStats,
        (applyUpdates MemoryTracker.new ss).current_stats.peak_usage
          = (ss.map MemoryStats.current_usage).foldl max 0)
    ∧ (∀ (ss : List MemoryStats) (s : MemoryStats),
        (applyUpdates MemoryTracker.new ss).current_stats.peak_usage
          ≤ (applyUpdates MemoryTracker.new (ss ++ [s])).current_stats.peak_usage)
    ∧ (applyUpdates MemoryTracker.new
        [usageSnap 1000, usageSnap 500, usageSnap 1500]).current_stats.peak_usage
        = 1500 := by
  have h0 : MemoryTracker.new.peak_usage = 0 := rfl
  have hmain : ∀ ss : List MemoryStats,
      (applyUpdates MemoryTracker.new ss).current_stats.peak_usage
        = (ss.map MemoryStats.current_usage).foldl max 0 := by
    intro ss
    rw [applyUpdates_stats_peak ss MemoryTracker.new rfl, applyUpdates_peak, h0]
  refine ⟨hmain, ?_, by decide⟩
  intro ss s
  rw [hmain, hmain, List.map_append, List.foldl_append]
  simp only [List.map_cons, List.map_nil, List.foldl_cons, List.foldl_nil]
  exact Nat.le_max_left _ _

/-! ## Claim C7: removing an absent address is a no-op -/

/-- C7: `remove_allocation` on an address absent from the ledger returns
`None` and leaves the tracker — every counter and the ledger — exactly as it
was (the result pairs the returned `none` with the unchanged tracker). -/
theorem remove_allocation_absent (t : MemoryTracker) (address : Nat)
    (h : lookupA address t.current_stats.active_allocations = none) :
    t.remove_allocation address = some (none, t) := by
  unfold MemoryTracker.remove_allocation
  rw [h]

/-- Witness for C7 at a fresh tracker and address 42. -/
theorem remove_allocation_absent_witness :
    lookupA 42 MemoryTracker.new.current_stats.active_allocations = none
    ∧ MemoryTracker.new.remove_allocation 42 = some (none, MemoryTracker.new) :=
  ⟨by decide, remove_allocation_absent MemoryTracker.new 42 (by decide)⟩

/-! ## Claim C1: no clamp on `current_usage -= info.size` -/

/-- C1 counterexample: in the reachable state `underflowTracker`
(`current_usage = 0`, a 5-byte record in the ledger, produced by one
`update_stats` call), removing address 1 does not complete with
`current_usage` clamped to 0 — the `usize` subtraction underflows (`none`
in the embedding: a debug-build panic or release-build wraparound in Rust),
refuting the claimed clamped, crash-free behaviour. -/
theorem remove_allocation_no_clamp_cex :
    underflowTracker.current_stats.current_usage = 0
    ∧ lookupA 1 underflowTracker.current_stats.active_allocations = some (mkInfo 5)
    ∧ underflowTracker.remove_allocation 1 = none := by
  decide

/-- C1 amended: `remove_allocation` on a present address decrements
`current_usage` by the record's size only when the size does not exceed the
stored `current_usage`; when the record's size exceeds `current_usage` (as
after a `replace_snapshot` lowered it) the subtraction underflows instead of
clamping at zero. -/
theorem remove_allocation_underflow_amended (t : MemoryTracker) (address : Nat)
    (info : AllocationInfo)
    (h : lookupA address t.current_stats.active_allocations = some info) :
    (info.size ≤ t.current_stats.current_usage →
      ∃ t', t.remove_allocation address = some (some info, t')
        ∧ t'.current_stats.current_usage
            = t.current_stats.current_usage - info.size
        ∧ t'.current_stats.total_freed
            = t.current_stats.total_freed + info.size
        ∧ t'.current_stats.free_count = t.current_stats.free_count + 1
        ∧ t'.current_stats.active_allocations
            = eraseA address t.current_stats.active_allocations)
    ∧ (t.current_stats.current_usage < info.size →
        t.remove_allocation address = none) := by
  constructor
  · intro hle
    refine ⟨removeState t address info, ?_, rfl, rfl, rfl, rfl⟩
    simp only [MemoryTracker.remove_allocation, h, if_pos hle]
  · intro hlt
    simp only [MemoryTracker.remove_allocation, h, if_neg (Nat.not_le.mpr hlt)]

/-- Witness for the amended C1 in the underflow branch at `underflowTracker`. -/
theorem remove_allocation_underflow_amended_witness :
    lookupA 1 underflowTracker.current_stats.active_allocations = some (mkInfo 5)
    ∧ underflowTracker.current_stats.current_usage < (mkInfo 5).size
    ∧ underflowTracker.remove_allocation 1 = none :=
  ⟨by decide, by decide,
    (remove_allocation_underflow_amended underflowTracker 1 (mkInfo 5)
      (by decide)).2 (by decide)⟩

/-! ## Claim C5: accounting invariant over valid interleavings -/

theorem remove_allocation_none {t : MemoryTracker} {address : Nat}
    (h : lookupA address t.current_stats.active_allocations = none) :
    t.remove_allocation address = some (none, t) := by
  simp only [MemoryTracker.remove_allocation, h]

theorem remove_allocation_present {t : MemoryTracker} {address : Nat}
    {v : AllocationInfo}
    (h : lookupA address t.current_stats.active_allocations = some v)
    (hle : v.size ≤ t.current_stats.current_usage) :
    t.remove_allocation address = some (some v, removeState t address v) := by
  simp only [MemoryTracker.remove_allocation, h, if_pos hle]

theorem applyEvents_invariant (es : List AllocEvent) :
    ∀ t : MemoryTracker,
      t.current_stats.current_usage = sumSizes t.current_stats.active_allocations →
      t.current_stats.active_allocations.length + t.current_stats.free_count
        = t.current_stats.allocation_count →
      (t.current_stats.active_allocations.map Prod.fst).Nodup →
      okEvents (t.current_stats.active_allocations.map Prod.fst) es = true →
      ∃ t', applyEvents t es = some t'
        ∧ t'.current_stats.current_usage
            = sumSizes t'.current_stats.active_allocations
        ∧ t'.current_stats.active_allocations.length + t'.current_stats.free_count
            = t'.current_stats.allocation_count
        ∧ (t'.current_stats.active_allocations.map Prod.fst).Nodup := by
  induction es with
  | nil =>
    intro t h1 h2 h3 _
    exact ⟨t, rfl, h1, h2, h3⟩
  | cons e es ih =>
    intro t h1 h2 h3 hok
    cases e with
    | add a i =>
      simp only [okEvents, Bool.and_eq_true, Bool.not_eq_true',
        decide_eq_false_iff_not] at hok
      obtain ⟨hmem, hok'⟩ := hok
      have hledger : (t.add_allocation a i).current_stats.active_allocations
          = (a, i) :: t.current_stats.active_allocations := by
        simp [MemoryTracker.add_allocation, insertA, eraseA_of_not_mem _ _ hmem]
      have hstep : applyEvents t (.add a i :: es)
          = applyEvents (t.add_allocation a i) es := rfl
      rw [hstep]
      apply ih (t.add_allocation a i)
      · have hsum2 : sumSizes ((a, i) :: t.current_stats.active_allocations)
            = i.size + sumSizes t.current_stats.active_allocations := by
          simp [sumSizes]
        have hu : (t.add_allocation a i).current_stats.current_usage
            = t.current_stats.current_usage + i.size := by
          simp [MemoryTracker.add_allocation]
        rw [hledger, hsum2, hu, h1]
        omega
      · have hc : (t.add_allocation a i).current_stats.allocation_count
            = t.current_stats.allocation_count + 1 := by
          simp [MemoryTracker.add_allocation]
        have hf : (t.add_allocation a i).current_stats.free_count
            = t.current_stats.free_count := by
          simp [MemoryTracker.add_allocation]
        rw [hledger, hc, hf, List.length_cons]
        omega
      · rw [hledger, List.map_cons]
        exact List.nodup_cons.mpr ⟨hmem, h3⟩
      · rw [hledger, List.map_cons]
        exact hok'
    | remove a =>
      simp only [okEvents] at hok
      cases hcase : lookupA a t.current_stats.active_allocations with
      | none =>
        have ha : a ∉ t.current_stats.active_allocations.map Prod.fst :=
          (lookupA_eq_none_iff a _).mp hcase
        have hstep : applyEvents t (.remove a :: es) = applyEvents t es := by
          simp [applyEvents, applyEvent, remove_allocation_none hcase]
        rw [hstep]
        apply ih t h1 h2 h3
        rwa [List.erase_of_not_mem ha] at hok
      | some v =>
        have hle : v.size ≤ t.current_stats.current_usage := by
          rw [h1]
          exact size_le_sumSizes hcase
        have hstep : applyEvents t (.remove a :: es)
            = applyEvents (removeState t a v) es := by
          simp [applyEvents, applyEvent, remove_allocation_present hcase hle]
        rw [hstep]
        have hledger : (removeState t a v).current_stats.active_allocations
            = eraseA a t.current_stats.active_allocations := rfl
        apply ih (removeState t a v)
        · have hu : (removeState t a v).current_stats.current_usage
              = t.current_stats.current_usage - v.size := rfl
          have hsum := sumSizes_eraseA hcase
          rw [hu, hledger, h1]
          omega
        · have hlen := length_eraseA hcase
          have hf : (removeState t a v).current_stats.free_count
              = t.current_stats.free_count + 1 := rfl
          have hc : (removeState t a v).current_stats.allocation_count
              = t.current_stats.allocation_count := rfl
          rw [hledger, hf, hc]
          omega
        · rw [hledger, keys_eraseA]
          exact h3.erase a
        · rw [hledger, keys_eraseA]
          exact hok

/-- C5: for every interleaving of `add_allocation`/`remove_allocation` calls
on a fresh tracker in which no address is added while still present, the
trace completes (no `usize` underflow), the final `current_usage` equals the
sum of the sizes of the still-active ledger entries, and the ledger's
cardinality equals `allocation_count - free_count` (hence is at most
`allocation_count`). -/
theorem tracker_interleaving_invariant (es : List AllocEvent)
    (hok : okEvents [] es = true) :
    ∃ t', applyEvents MemoryTracker.new es = some t'
      ∧ t'.current_stats.current_usage
          = sumSizes t'.current_stats.active_allocations
      ∧ t'.current_stats.active_allocations.length
          = t'.current_stats.allocation_count - t'.current_stats.free_count
      ∧ t'.current_stats.active_allocations.length
          ≤ t'.current_stats.allocation_count := by
  obtain ⟨t', ha, hb, hc, _⟩ :=
    applyEvents_invariant es MemoryTracker.new rfl rfl (by simp [MemoryTracker.new]) hok
  exact ⟨t', ha, hb, by omega, by omega⟩

/-- Witness for C5 on the concrete `traceExample`. -/
theorem tracker_interleaving_invariant_witness :
    okEvents [] traceExample = true
    ∧ ∃ t', applyEvents MemoryTracker.new traceExample = some t'
        ∧ t'.current_stats.current_usage
            = sumSizes t'.current_stats.active_allocations
        ∧ t'.current_stats.active_allocations.length
            = t'.current_stats.allocation_count - t'.current_stats.free_count
        ∧ t'.current_stats.active_allocations.length
            ≤ t'.current_stats.allocation_count :=
  ⟨by decide, tracker_interleaving_invariant traceExample (by decide)⟩

/-! ## Claim C9: add_allocation on an already-present address -/

/-- C9: when `address` already maps to `old`, `add_allocation` overwrites
the ledger entry with the new record yet still adds the new size to
`total_allocated` and `current_usage` and bumps `allocation_count`; starting
from a ledger-consistent state, the resulting `current_usage` exceeds the
sum of the ledger's sizes by exactly `old.size` (strictly, whenever
`old.size` is positive). -/
theorem add_allocation_duplicate (t : MemoryTracker) (address : Nat)
    (info old : AllocationInfo)
    (hold : lookupA address t.current_stats.active_allocations = some old)
    (hus : t.current_stats.current_usage
        = sumSizes t.current_stats.active_allocations) :
    (t.add_allocation address info).current_stats.total_allocated
        = t.current_stats.total_allocated + info.size
    ∧ (t.add_allocation address info).current_stats.current_usage
        = t.current_stats.current_usage + info.size
    ∧ (t.add_allocation address info).current_stats.allocation_count
        = t.current_stats.allocation_count + 1
    ∧ lookupA address (t.add_allocation address info).current_stats.active_allocations
        = some info
    ∧ (t.add_allocation address info).current_stats.current_usage
        = sumSizes (t.add_allocation address info).current_stats.active_allocations
            + old.size
    ∧ (0 < old.size →
        sumSizes (t.add_allocation address info).current_stats.active_allocations
          < (t.add_allocation address info).current_stats.current_usage) := by
  have hsum := sumSizes_eraseA hold
  have hledger : (t.add_allocation address info).current_stats.active_allocations
      = (address, info) :: eraseA address t.current_stats.active_allocations := by
    simp [MemoryTracker.add_allocation, insertA]
  have hsum2 : sumSizes ((address, info)
        :: eraseA address t.current_stats.active_allocations)
      = info.size + sumSizes (eraseA address t.current_stats.active_allocations) := by
    simp [sumSizes]
  have hu : (t.add_allocation address info).current_stats.current_usage
      = t.current_stats.current_usage + info.size := by
    simp [MemoryTracker.add_allocation]
  refine ⟨by simp [MemoryTracker.add_allocation], hu,
    by simp [MemoryTracker.add_allocation], ?_, ?_, ?_⟩
  · rw [hledger]
    simp [lookupA]
  · rw [hu, hledger, hsum2]
    omega
  · intro hpos
    rw [hu, hledger, hsum2]
    omega

/-- Witness for C9: re-adding address 1 (old size 5, new size 7) on
`oneAllocTracker` leaves `current_usage` strictly above the ledger sum. -/
theorem add_allocation_duplicate_witness :
    (0 : Nat) < (mkInfo 5).size
    ∧ sumSizes (oneAllocTracker.add_allocation 1
        (mkInfo 7)).current_stats.active_allocations
      < (oneAllocTracker.add_allocation 1 (mkInfo 7)).current_stats.current_usage :=
  ⟨by decide,
    (add_allocation_duplicate oneAllocTracker 1 (mkInfo 7) (mkInfo 5)
      (by decide) (by decide)).2.2.2.2.2 (by decide)⟩

/-! ## Claim C10: report duration is clamped at zero -/

/-- C10: the report's `duration` is `end_time - start_time` whenever the end
is not earlier than the start, and `Duration::ZERO` when the end precedes
the start (`signed_duration_since(..).to_std().unwrap_or(ZERO)`); in both
cases the report is still assembled, with every field and the leak summary
populated from the inputs. -/
theorem generate_report_duration_clamped (pid : Nat) (command : String)
    (start_time end_time : Int) (stats : MemoryStats) :
    ((start_time ≤ end_time →
        ((generate_report pid command start_time end_time stats).duration : Int)
          = end_time - start_time)
      ∧ (end_time < start_time →
          (generate_report pid command start_time end_time stats).duration = 0))
    ∧ (generate_report pid command start_time end_time stats).pid = pid
    ∧ (generate_report pid command start_time end_time stats).command = command
    ∧ (generate_report pid command start_time end_time stats).start_time = start_time
    ∧ (generate_report pid command start_time end_time stats).end_time = end_time
    ∧ (generate_report pid command start_time end_time stats).memory_stats = stats
    ∧ (generate_report pid command start_time end_time stats).leak_summary
        = calculate_leak_summary stats := by
  have hd : (generate_report pid command start_time end_time stats).duration
      = (end_time - start_time).toNat := rfl
  refine ⟨⟨?_, ?_⟩, rfl, rfl, rfl, rfl, rfl, rfl⟩
  · intro h
    rw [hd]
    omega
  · intro h
    rw [hd]
    omega

/-- Witness for C10 on both orderings of the timestamps. -/
theorem generate_report_duration_clamped_witness :
    ((3 : Int) ≤ 5
      ∧ ((generate_report 1 "sleep 1" 3 5 (usageSnap 0)).duration : Int) = 5 - 3)
    ∧ ((5 : Int) < 7
      ∧ (generate_report 1 "sleep 1" 7 5 (usageSnap 0)).duration = 0) :=
  ⟨⟨by decide,
    (generate_report_duration_clamped 1 "sleep 1" 3 5 (usageSnap 0)).1.1 (by decide)⟩,
   ⟨by decide,
    (generate_report_duration_clamped 1 "sleep 1" 7 5 (usageSnap 0)).1.2 (by decide)⟩⟩

/-! ## Claim C8: shape of sampled `ProcessMonitor` snapshots -/

/-- C8: every successfully sampled `MemoryStats` has an empty ledger and
zero allocation/free counts, `total_allocated = peak_usage` (the sampled
peak), `total_freed = peak_usage - current_usage` saturating at zero, the
accounting identity `current_usage = total_allocated - total_freed` (over
the integers) holds exactly when `current_usage ≤ peak_usage`, and the
derived leak summary has zero leaks with `total_leaked_bytes` the sampled
resident usage. -/
theorem get_memory_stats_shape (resident pageSize : Nat)
    (vmrss? vmpeak? : Option Nat) :
    (get_memory_stats resident pageSize vmrss? vmpeak?).active_allocations = []
    ∧ (get_memory_stats resident pageSize vmrss? vmpeak?).allocation_count = 0
    ∧ (get_memory_stats resident pageSize vmrss? vmpeak?).free_count = 0
    ∧ (get_memory_stats resident pageSize vmrss? vmpeak?).total_allocated
        = (get_memory_stats resident pageSize vmrss? vmpeak?).peak_usage
    ∧ (get_memory_stats resident pageSize vmrss? vmpeak?).total_freed
        = (get_memory_stats resident pageSize vmrss? vmpeak?).peak_usage
          - (get_memory_stats resident pageSize vmrss? vmpeak?).current_usage
    ∧ (((get_memory_stats resident pageSize vmrss? vmpeak?).total_allocated : Int)
          - (get_memory_stats resident pageSize vmrss? vmpeak?).total_freed
          = (get_memory_stats resident pageSize vmrss? vmpeak?).current_usage
        ↔ (get_memory_stats resident pageSize vmrss? vmpeak?).current_usage
            ≤ (get_memory_stats resident pageSize vmrss? vmpeak?).peak_usage)
    ∧ (calculate_leak_summary
        (get_memory_stats resident pageSize vmrss? vmpeak?)).leak_count = 0
    ∧ (calculate_leak_summary
        (get_memory_stats resident pageSize vmrss? vmpeak?)).leaks_by_size = []
    ∧ (calculate_leak_summary
        (get_memory_stats resident pageSize vmrss? vmpeak?)).total_leaked_bytes
        = (get_memory_stats resident pageSize vmrss? vmpeak?).current_usage := by
  refine ⟨rfl, rfl, rfl, rfl, rfl, ?_, rfl, rfl, rfl⟩
  simp only [get_memory_stats]
  omega

/-! ## Grouping lemmas for `calculate_leak_summary` -/

theorem lookupC_bump_self (s : Nat) (g : List (Nat × Nat)) :
    lookupC s (bump s g) = some ((lookupC s g).getD 0 + 1) := by
  induction g with
  | nil => simp [bump, lookupC]
  | cons p t ih =>
    obtain ⟨k, c⟩ := p
    by_cases hk : k = s
    · subst hk
      simp [bump, lookupC]
    · simp [bump, lookupC, hk, ih]

theorem lookupC_bump_ne {k s : Nat} (h : k ≠ s) (g : List (Nat × Nat)) :
    lookupC k (bump s g) = lookupC k g := by
  induction g with
  | nil => simp [bump, lookupC, (Ne.symm h : s ≠ k)]
  | cons p t ih =>
    obtain ⟨k', c⟩ := p
    by_cases hk : k' = s
    · subst hk
      have hne : ¬k' = k := fun e => h e.symm
      simp [bump, lookupC, hne]
    · by_cases hk2 : k' = k
      · subst hk2
        simp [bump, lookupC, hk]
      · simp [bump, lookupC, hk, hk2, ih]

theorem keys_bump (s : Nat) (g : List (Nat × Nat)) :
    (bump s g).map Prod.fst
      = if s ∈ g.map Prod.fst then g.map Prod.fst else g.map Prod.fst ++ [s] := by
  induction g with
  | nil => simp [bump]
  | cons p t ih =>
    obtain ⟨k, c⟩ := p
    by_cases hk : k = s
    · subst hk
      simp [bump]
    · have hne : ¬s = k := fun hsk => hk hsk.symm
      by_cases hmem : s ∈ t.map Prod.fst <;>
        simp [bump, hk, hne, hmem, ih]

theorem nodup_keys_bump (s : Nat) {g : List (Nat × Nat)}
    (h : (g.map Prod.fst).Nodup) : ((bump s g).map Prod.fst).Nodup := by
  rw [keys_bump]
  by_cases hmem : s ∈ g.map Prod.fst
  · simpa [hmem] using h
  · simp only [hmem, if_false]
    simp [List.nodup_append, h, hmem]

theorem mem_keys_iff_lookupC (s : Nat) (g : List (Nat × Nat)) :
    s ∈ g.map Prod.fst ↔ (lookupC s g).isSome := by
  induction g with
  | nil => simp [lookupC]
  | cons p t ih =>
    obtain ⟨k, c⟩ := p
    by_cases hk : k = s
    · subst hk
      simp [lookupC]
    · have hne : ¬s = k := fun hsk => hk hsk.symm
      simp [lookupC, hk, hne, ih]

theorem mem_iff_lookupC {g : List (Nat × Nat)} (hnd : (g.map Prod.fst).Nodup)
    (k c : Nat) : (k, c) ∈ g ↔ lookupC k g = some c := by
  induction g with
  | nil => simp [lookupC]
  | cons p t ih =>
    obtain ⟨k', c'⟩ := p
    simp only [List.map_cons, List.nodup_cons] at hnd
    by_cases hk : k' = k
    · subst hk
      have hl : lookupC k' ((k', c') :: t) = some c' := by simp [lookupC]
      rw [hl]
      simp only [List.mem_cons, Prod.mk.injEq, true_and, Option.some.injEq]
      constructor
      · intro hmem
        rcases hmem with h | h
        · exact h.symm
        · exact absurd (List.mem_map_of_mem Prod.fst h) hnd.1
      · intro h
        exact Or.inl h.symm
    · have hl : lookupC k ((k', c') :: t) = lookupC k t := by simp [lookupC, hk]
      rw [hl, ← ih hnd.2]
      simp only [List.mem_cons, Prod.mk.injEq]
      constructor
      · intro hmem
        rcases hmem with ⟨h1, _⟩ | h
        · exact absurd h1.symm hk
        · exact h
      · intro h
        exact Or.inr h

theorem lookupC_foldl_getD (vs : List AllocationInfo) :
    ∀ (g : List (Nat × Nat)) (s : Nat),
      (lookupC s (vs.foldl (fun g v => bump v.size g) g)).getD 0
        = (lookupC s g).getD 0 + vs.countP (fun v => v.size == s) := by
  induction vs with
  | nil => intro g s; simp
  | cons v vs ih =>
    intro g s
    have hstep : (v :: vs).foldl (fun g v => bump v.size g) g
        = vs.foldl (fun g v => bump v.size g) (bump v.size g) := rfl
    rw [hstep, ih, List.countP_cons]
    by_cases hs : v.size = s
    · subst hs
      rw [lookupC_bump_self]
      simp only [Option.getD_some, beq_self_eq_true, if_pos]
      omega
    · rw [lookupC_bump_ne (fun e => hs e.symm)]
      simp [hs]

theorem lookupC_foldl_none (vs : List AllocationInfo) :
    ∀ (g : List (Nat × Nat)) (s : Nat),
      lookupC s (vs.foldl (fun g v => bump v.size g) g) = none
        ↔ (lookupC s g = none ∧ vs.countP (fun v => v.size == s) = 0) := by
  induction vs with
  | nil => intro g s; simp
  | cons v vs ih =>
    intro g s
    have hstep : (v :: vs).foldl (fun g v => bump v.size g) g
        = vs.foldl (fun g v => bump v.size g) (bump v.size g) := rfl
    rw [hstep, ih, List.countP_cons]
    by_cases hs : v.size = s
    · subst hs
      rw [lookupC_bump_self]
      simp
    · rw [lookupC_bump_ne (fun e => hs e.symm)]
      simp [hs]

theorem nodup_keys_foldl (vs : List AllocationInfo) :
    ∀ g : List (Nat × Nat), (g.map Prod.fst).Nodup →
      ((vs.foldl (fun g v => bump v.size g) g).map Prod.fst).Nodup := by
  induction vs with
  | nil => intro g h; exact h
  | cons v vs ih =>
    intro g h
    exact ih (bump v.size g) (nodup_keys_bump v.size h)

theorem lookupC_groupCounts (vs : List AllocationInfo) (s : Nat) :
    lookupC s (groupCounts vs)
      = if vs.countP (fun v => v.size == s) = 0 then none
        else some (vs.countP (fun v => v.size == s)) := by
  have hgetD : (lookupC s (groupCounts vs)).getD 0
      = (lookupC s []).getD 0 + vs.countP (fun v => v.size == s) :=
    lookupC_foldl_getD vs [] s
  have hnone : lookupC s (groupCounts vs) = none
      ↔ (lookupC s [] = none ∧ vs.countP (fun v => v.size == s) = 0) :=
    lookupC_foldl_none vs [] s
  have hl0 : lookupC s ([] : List (Nat × Nat)) = none := rfl
  rw [hl0] at hgetD hnone
  simp only [Option.getD_none, Nat.zero_add] at hgetD
  by_cases hc : vs.countP (fun v => v.size == s) = 0
  · rw [if_pos hc]
    exact hnone.mpr ⟨rfl, hc⟩
  · rw [if_neg hc]
    cases hres : lookupC s (groupCounts vs) with
    | none => exact absurd (hnone.mp hres).2 hc
    | some c =>
      rw [hres] at hgetD
      simp only [Option.getD_some] at hgetD
      rw [hgetD]

theorem nodup_keys_groupCounts (vs : List AllocationInfo) :
    ((groupCounts vs).map Prod.fst).Nodup :=
  nodup_keys_foldl vs [] (by simp)

theorem mem_groupCounts_iff (vs : List AllocationInfo) (s c : Nat) :
    (s, c) ∈ groupCounts vs
      ↔ (0 < c ∧ c = vs.countP (fun v => v.size == s)) := by
  rw [mem_iff_lookupC (nodup_keys_groupCounts vs), lookupC_groupCounts]
  by_cases hc : vs.countP (fun v => v.size == s) = 0
  · simp [hc]
    omega
  · simp [hc]
    constructor
    · intro h
      exact ⟨by omega, h.symm⟩
    · intro h
      exact h.2.symm

theorem mem_keys_groupCounts_iff (vs : List AllocationInfo) (s : Nat) :
    s ∈ (groupCounts vs).map Prod.fst ↔ s ∈ vs.map AllocationInfo.size := by
  rw [mem_keys_iff_lookupC, lookupC_groupCounts]
  by_cases hc : vs.countP (fun v => v.size == s) = 0
  · rw [if_pos hc]
    simp only [Option.isSome_none, Bool.false_eq_true, false_iff]
    intro hmem
    obtain ⟨v, hv, hvs⟩ := List.mem_map.mp hmem
    have hpos : 0 < vs.countP (fun v => v.size == s) :=
      List.countP_pos_iff.mpr ⟨v, hv, by simp [hvs]⟩
    omega
  · rw [if_neg hc]
    simp only [Option.isSome_some, true_iff]
    have hpos : 0 < vs.countP (fun v => v.size == s) := Nat.pos_of_ne_zero hc
    obtain ⟨v, hv, hvs⟩ := List.countP_pos_iff.mp hpos
    exact List.mem_map.mpr ⟨v, hv, by simpa using hvs⟩

theorem sumSnd_bump (s : Nat) (g : List (Nat × Nat)) :
    ((bump s g).map Prod.snd).sum = (g.map Prod.snd).sum + 1 := by
  induction g with
  | nil => simp [bump]
  | cons p t ih =>
    obtain ⟨k, c⟩ := p
    by_cases hk : k = s <;> simp [bump, hk, ih] <;> omega

theorem sumMul_bump (s : Nat) (g : List (Nat × Nat)) :
    ((bump s g).map fun p => p.1 * p.2).sum
      = ((g.map fun p => p.1 * p.2).sum) + s := by
  induction g with
  | nil => simp [bump]
  | cons p t ih =>
    obtain ⟨k, c⟩ := p
    by_cases hk : k = s
    · subst hk
      simp [bump, Nat.mul_add]
      omega
    · simp [bump, hk, ih]
      omega

theorem sumSnd_foldl (vs : List AllocationInfo) :
    ∀ g : List (Nat × Nat),
      ((vs.foldl (fun g v => bump v.size g) g).map Prod.snd).sum
        = (g.map Prod.snd).sum + vs.length := by
  induction vs with
  | nil => intro g; simp
  | cons v vs ih =>
    intro g
    have hstep : (v :: vs).foldl (fun g v => bump v.size g) g
        = vs.foldl (fun g v => bump v.size g) (bump v.size g) := rfl
    rw [hstep, ih, sumSnd_bump]
    simp
    omega

theorem sumMul_foldl (vs : List AllocationInfo) :
    ∀ g : List (Nat × Nat),
      ((vs.foldl (fun g v => bump v.size g) g).map fun p => p.1 * p.2).sum
        = ((g.map fun p => p.1 * p.2).sum) + (vs.map AllocationInfo.size).sum := by
  induction vs with
  | nil => intro g; simp
  | cons v vs ih =>
    intro g
    have hstep : (v :: vs).foldl (fun g v => bump v.size g) g
        = vs.foldl (fun g v => bump v.size g) (bump v.size g) := rfl
    rw [hstep, ih, sumMul_bump]
    simp
    omega

theorem sumSnd_groupCounts (vs : List AllocationInfo) :
    ((groupCounts vs).map Prod.snd).sum = vs.length := by
  have h := sumSnd_foldl vs []
  simpa [groupCounts] using h

theorem sumMul_groupCounts (vs : List AllocationInfo) :
    ((groupCounts vs).map fun p => p.1 * p.2).sum
      = (vs.map AllocationInfo.size).sum := by
  have h := sumMul_foldl vs []
  simpa [groupCounts] using h

theorem sorted_leaksSort (g : List (Nat × Nat)) :
    List.Pairwise (fun a b : Nat × Nat => b.1 ≤ a.1)
      (List.insertionSort (fun a b => b.1 ≤ a.1) g) := by
  haveI : IsTotal (Nat × Nat) (fun a b => b.1 ≤ a.1) :=
    ⟨fun a b => le_total b.1 a.1⟩
  haveI : IsTrans (Nat × Nat) (fun a b => b.1 ≤ a.1) :=
    ⟨fun a b c h1 h2 => le_trans h2 h1⟩
  exact List.sorted_insertionSort _ g

theorem strict_sorted_of_nodup_keys {L : List (Nat × Nat)}
    (hs : List.Pairwise (fun a b : Nat × Nat => b.1 ≤ a.1) L)
    (hnd : (L.map Prod.fst).Nodup) :
    List.Pairwise (fun a b : Nat × Nat => b.1 < a.1) L := by
  have hne : List.Pairwise (fun a b : Nat × Nat => a.1 ≠ b.1) L :=
    List.pairwise_map.mp hnd
  exact (hs.and hne).imp fun h => lt_of_le_of_ne h.1 (Ne.symm h.2)

theorem leaksSort_eq_of_perm {g1 g2 : List (Nat × Nat)} (hp : g1.Perm g2)
    (h1 : (g1.map Prod.fst).Nodup) :
    List.insertionSort (fun a b => b.1 ≤ a.1) g1
      = List.insertionSort (fun a b => b.1 ≤ a.1) g2 := by
  haveI : IsAntisymm (Nat × Nat) (fun a b : Nat × Nat => b.1 < a.1) :=
    ⟨fun a b hab hba => absurd (lt_trans hab hba) (lt_irrefl _)⟩
  have h2 : (g2.map Prod.fst).Nodup := ((hp.map Prod.fst).nodup_iff).mp h1
  have hL1 := List.perm_insertionSort (fun a b : Nat × Nat => b.1 ≤ a.1) g1
  have hL2 := List.perm_insertionSort (fun a b : Nat × Nat => b.1 ≤ a.1) g2
  have hnd1 : ((List.insertionSort (fun a b : Nat × Nat => b.1 ≤ a.1) g1).map
      Prod.fst).Nodup := ((hL1.map Prod.fst).nodup_iff).mpr h1
  have hnd2 : ((List.insertionSort (fun a b : Nat × Nat => b.1 ≤ a.1) g2).map
      Prod.fst).Nodup := ((hL2.map Prod.fst).nodup_iff).mpr h2
  exact List.eq_of_perm_of_sorted (hL1.trans (hp.trans hL2.symm))
    (strict_sorted_of_nodup_keys (sorted_leaksSort g1) hnd1)
    (strict_sorted_of_nodup_keys (sorted_leaksSort g2) hnd2)

theorem maxSize_eq_none_iff (vs : List AllocationInfo) :
    maxSize vs = none ↔ vs = [] := by
  cases vs with
  | nil => simp [maxSize]
  | cons v vs =>
    simp only [maxSize]
    cases maxSize vs <;> simp

theorem maxSize_spec (vs : List AllocationInfo) :
    ∀ m : Nat, maxSize vs = some m →
      m ∈ vs.map AllocationInfo.size ∧ ∀ x ∈ vs.map AllocationInfo.size, x ≤ m := by
  induction vs with
  | nil => intro m h; simp [maxSize] at h
  | cons v vs ih =>
    intro m h
    simp only [maxSize] at h
    cases hm : maxSize vs with
    | none =>
      rw [hm] at h
      simp only [Option.some.injEq] at h
      have hnil : vs = [] := (maxSize_eq_none_iff vs).mp hm
      subst hnil
      simp [← h]
    | some m' =>
      rw [hm] at h
      simp only [Option.some.injEq] at h
      obtain ⟨hmem, hle⟩ := ih m' hm
      constructor
      · rcases Nat.le_total v.size m' with hc | hc
        · rw [← h, Nat.max_eq_right hc]
          simp only [List.map_cons, List.mem_cons]
          exact Or.inr hmem
        · rw [← h, Nat.max_eq_left hc]
          simp
      · intro x hx
        simp only [List.map_cons, List.mem_cons] at hx
        rcases hx with hx | hx
        · rw [hx, ← h]
          exact Nat.le_max_left _ _
        · exact le_trans (hle x hx) (h ▸ Nat.le_max_right _ _)

theorem maxSize_perm {vs1 vs2 : List AllocationInfo} (hp : vs1.Perm vs2) :
    maxSize vs1 = maxSize vs2 := by
  cases h1 : maxSize vs1 with
  | none =>
    have hnil : vs1 = [] := (maxSize_eq_none_iff vs1).mp h1
    subst hnil
    rw [(maxSize_eq_none_iff vs2).mpr (List.Perm.eq_nil hp.symm)]
  | some m =>
    cases h2 : maxSize vs2 with
    | none =>
      have hnil : vs2 = [] := (maxSize_eq_none_iff vs2).mp h2
      subst hnil
      rw [List.Perm.eq_nil hp] at h1
      simp [maxSize] at h1
    | some m2 =>
      obtain ⟨hm1, hle1⟩ := maxSize_spec vs1 m h1
      obtain ⟨hm2, hle2⟩ := maxSize_spec vs2 m2 h2
      have hpm := hp.map AllocationInfo.size
      have hab : m ≤ m2 := hle2 m (hpm.mem_iff.mp hm1)
      have hba : m2 ≤ m := hle1 m2 (hpm.mem_iff.mpr hm2)
      rw [Nat.le_antisymm hab hba]

theorem groupCounts_perm {vs1 vs2 : List AllocationInfo} (hp : vs1.Perm vs2) :
    (groupCounts vs1).Perm (groupCounts vs2) := by
  have hnd1 : (groupCounts vs1).Nodup :=
    List.Nodup.of_map Prod.fst (nodup_keys_groupCounts vs1)
  have hnd2 : (groupCounts vs2).Nodup :=
    List.Nodup.of_map Prod.fst (nodup_keys_groupCounts vs2)
  rw [List.perm_ext_iff_of_nodup hnd1 hnd2]
  intro p
  obtain ⟨s, c⟩ := p
  rw [mem_groupCounts_iff, mem_groupCounts_iff,
    hp.countP_eq (fun v => v.size == s)]

/-! ## Claim C6: shape of `leaks_by_size` -/

/-- C6: `leaks_by_size` pairs each occurring size with the number of active
allocations of that size (counts are positive), contains exactly the sizes
present in the ledger, is strictly descending in size (hence each size
appears at most once); and the spec's three-allocation scenario yields
`leak_count = 3`, `largest_leak = 200`,
`leaks_by_size = [(200,1),(100,2)]`, `total_leaked_bytes = 400`. -/
theorem leaks_by_size_grouping :
    (∀ stats : MemoryStats,
      (∀ p ∈ (calculate_leak_summary stats).leaks_by_size,
          0 < p.2
          ∧ p.2 = (stats.active_allocations.map Prod.snd).countP
              (fun v => v.size == p.1))
      ∧ (∀ s : Nat,
          s ∈ (calculate_leak_summary stats).leaks_by_size.map Prod.fst
            ↔ s ∈ (stats.active_allocations.map Prod.snd).map AllocationInfo.size)
      ∧ List.Pairwise (fun a b : Nat × Nat => b.1 < a.1)
          (calculate_leak_summary stats).leaks_by_size
      ∧ ((calculate_leak_summary stats).leaks_by_size.map Prod.fst).Nodup)
    ∧ calculate_leak_summary scenarioTracker.current_stats
        = { total_leaked_bytes := 400, leak_count := 3,
            largest_leak := some 200, leaks_by_size := [(200, 1), (100, 2)] } := by
  refine ⟨?_, by decide⟩
  intro stats
  have hL : (calculate_leak_summary stats).leaks_by_size
      = List.insertionSort (fun a b => b.1 ≤ a.1)
          (groupCounts (stats.active_allocations.map Prod.snd)) := rfl
  have hperm := List.perm_insertionSort (fun a b : Nat × Nat => b.1 ≤ a.1)
      (groupCounts (stats.active_allocations.map Prod.snd))
  have hnd : ((calculate_leak_summary stats).leaks_by_size.map Prod.fst).Nodup := by
    rw [hL]
    exact ((hperm.map Prod.fst).nodup_iff).mpr (nodup_keys_groupCounts _)
  refine ⟨?_, ?_, ?_, hnd⟩
  · intro p hp
    obtain ⟨s, c⟩ := p
    rw [hL] at hp
    have hmem := hperm.mem_iff.mp hp
    have hchar := (mem_groupCounts_iff _ s c).mp hmem
    exact ⟨hchar.1, hchar.2⟩
  · intro s
    rw [hL, List.Perm.mem_iff (hperm.map Prod.fst)]
    exact mem_keys_groupCounts_iff _ s
  · rw [hL]
    exact strict_sorted_of_nodup_keys (sorted_leaksSort _) (hL ▸ hnd)

/-- Witness for C6: the count of size 200 in the scenario ledger, plus the
full scenario summary. -/
theorem leaks_by_size_grouping_witness :
    (0 < ((200, 1) : Nat × Nat).2
      ∧ ((200, 1) : Nat × Nat).2
          = (scenarioTracker.current_stats.active_allocations.map
              Prod.snd).countP (fun v => v.size == ((200, 1) : Nat × Nat).1))
    ∧ calculate_leak_summary scenarioTracker.current_stats
        = { total_leaked_bytes := 400, leak_count := 3,
            largest_leak := some 200, leaks_by_size := [(200, 1), (100, 2)] } :=
  ⟨(leaks_by_size_grouping.1 scenarioTracker.current_stats).1 (200, 1)
      (by decide),
   leaks_by_size_grouping.2⟩

/-! ## Claim C2: leak-summary consistency equations -/

/-- C2 counterexample: on the snapshot sampled as `get_memory_stats 7 1 none
none` (empty ledger, `current_usage = 7`) the weighted sum over
`leaks_by_size` is 0 while `total_leaked_bytes` is 7, so the second
consistency equation of the claim fails: `total_leaked_bytes` is copied from
`current_usage`, not recomputed from the ledger. -/
theorem leak_equations_cex :
    ((calculate_leak_summary (get_memory_stats 7 1 none none)).leaks_by_size.map
        fun p => p.1 * p.2).sum = 0
    ∧ (calculate_leak_summary (get_memory_stats 7 1 none none)).total_leaked_bytes
        = 7
    ∧ ((calculate_leak_summary (get_memory_stats 7 1 none none)).leaks_by_size.map
        fun p => p.1 * p.2).sum
      ≠ (calculate_leak_summary (get_memory_stats 7 1 none none)).total_leaked_bytes := by
  decide

/-- C2 amended: `calculate_leak_summary` is deterministic — snapshots with
equal `current_usage` and ledgers equal as maps (permutations of each other)
yield identical summaries; the count equation `sum(count) = leak_count`
holds for every snapshot; and the weighted equation holds in the form
`sum(size*count) = sum of active sizes`, which equals `total_leaked_bytes`
exactly on snapshots whose `current_usage` agrees with the ledger sum. -/
theorem leak_summary_equations_amended :
    (∀ s1 s2 : MemoryStats,
        s1.current_usage = s2.current_usage →
        s1.active_allocations.Perm s2.active_allocations →
        calculate_leak_summary s1 = calculate_leak_summary s2)
    ∧ (∀ stats : MemoryStats,
        ((calculate_leak_summary stats).leaks_by_size.map Prod.snd).sum
          = (calculate_leak_summary stats).leak_count)
    ∧ (∀ stats : MemoryStats,
        ((calculate_leak_summary stats).leaks_by_size.map fun p => p.1 * p.2).sum
          = sumSizes stats.active_allocations)
    ∧ (∀ stats : MemoryStats,
        stats.current_usage = sumSizes stats.active_allocations →
        ((calculate_leak_summary stats).leaks_by_size.map fun p => p.1 * p.2).sum
          = (calculate_leak_summary stats).total_leaked_bytes) := by
  have hsum2 : ∀ stats : MemoryStats,
      ((calculate_leak_summary stats).leaks_by_size.map fun p => p.1 * p.2).sum
        = sumSizes stats.active_allocations := by
    intro stats
    have hL : (calculate_leak_summary stats).leaks_by_size
        = List.insertionSort (fun a b => b.1 ≤ a.1)
            (groupCounts (stats.active_allocations.map Prod.snd)) := rfl
    rw [hL, List.Perm.sum_eq ((List.perm_insertionSort
        (fun a b : Nat × Nat => b.1 ≤ a.1) _).map fun p : Nat × Nat => p.1 * p.2),
      sumMul_groupCounts]
    simp [sumSizes, List.map_map]
    rfl
  refine ⟨?_, ?_, hsum2, ?_⟩
  · intro s1 s2 hc hperm
    have hvs : (s1.active_allocations.map Prod.snd).Perm
        (s2.active_allocations.map Prod.snd) := hperm.map Prod.snd
    simp only [calculate_leak_summary, LeakSummary.mk.injEq]
    exact ⟨hc, hperm.length_eq, maxSize_perm hvs,
      leaksSort_eq_of_perm (groupCounts_perm hvs) (nodup_keys_groupCounts _)⟩
  · intro stats
    have hL : (calculate_leak_summary stats).leaks_by_size
        = List.insertionSort (fun a b => b.1 ≤ a.1)
            (groupCounts (stats.active_allocations.map Prod.snd)) := rfl
    rw [hL, List.Perm.sum_eq ((List.perm_insertionSort
        (fun a b : Nat × Nat => b.1 ≤ a.1) _).map Prod.snd),
      sumSnd_groupCounts]
    simp [calculate_leak_summary]
  · intro stats hc
    rw [hsum2 stats]
    exact hc.symm

/-- Witness for the amended C2 on the three-allocation scenario snapshot. -/
theorem leak_summary_equations_amended_witness :
    scenarioTracker.current_stats.current_usage
        = sumSizes scenarioTracker.current_stats.active_allocations
    ∧ ((calculate_leak_summary scenarioTracker.current_stats).leaks_by_size.map
        fun p => p.1 * p.2).sum
      = (calculate_leak_summary scenarioTracker.current_stats).total_leaked_bytes :=
  ⟨by decide,
    leak_summary_equations_amended.2.2.2 scenarioTracker.current_stats (by decide)⟩

/-! ## Claim C3: summaries of snapshots with an empty ledger -/

/-- C3 counterexample: the empty-ledger snapshot `get_memory_stats 5 1 none
none` has `current_usage = 5`, so its summary's `total_leaked_bytes` is 5,
not 0 — the claim's "regardless of the snapshot's other counter values" part
fails because `total_leaked_bytes` copies `current_usage`. -/
theorem empty_ledger_total_cex :
    (get_memory_stats 5 1 none none).active_allocations = []
    ∧ (calculate_leak_summary (get_memory_stats 5 1 none none)).total_leaked_bytes
        = 5
    ∧ (calculate_leak_summary (get_memory_stats 5 1 none none)).total_leaked_bytes
        ≠ 0 := by
  decide

/-- C3 amended: on every snapshot with an empty `active_allocations` map the
summary has `leak_count = 0`, no largest leak and an empty `leaks_by_size`
regardless of the other counters, while `total_leaked_bytes` equals the
snapshot's `current_usage` (so it is 0 exactly when `current_usage` is 0). -/
theorem empty_ledger_amended (stats : MemoryStats)
    (h : stats.active_allocations = []) :
    calculate_leak_summary stats
      = { total_leaked_bytes := stats.current_usage, leak_count := 0,
          largest_leak := none, leaks_by_size := [] } := by
  simp [calculate_leak_summary, h, groupCounts, maxSize]

/-- Witness for the amended C3 at the empty-ledger snapshot with usage 5. -/
theorem empty_ledger_amended_witness :
    (usageSnap 5).active_allocations = []
    ∧ calculate_leak_summary (usageSnap 5)
        = { total_leaked_bytes := 5, leak_count := 0,
            largest_leak := none, leaks_by_size := [] } :=
  ⟨rfl, empty_ledger_amended (usageSnap 5) rfl⟩
